import Mathlib

/-!
Shallow embedding of the product-catalog module of the `mylightgallery-art`
repository (`src/lib/wp.ts`, the title-scrubbing variant, together with the
config resolver `getEnvValue` from `src/lib/env.ts`).

Modelling conventions:
* JavaScript `string | null | undefined` values become `Option String`;
  JS truthiness of such a value (`null`, `undefined` and `""` are falsy)
  is `optTruthy`.
* The JS regular-expression operations used by the source are implemented
  directly over `List Char`, reproducing the left-to-right scan, greedy
  matching and the backtracking each concrete pattern can perform.
* `\s` is modelled by its ASCII part (space, tab, LF, CR, VT, FF).
* JS numbers are idealised as exact decimals (`JsNum`); `Number(string)`
  is modelled for the decimal-literal grammar (hexadecimal/octal/binary
  and `Infinity` literals are outside the model, as is float64 rounding).
* The module-level mutable cache slot and `Date.now()` become explicit
  `Option CacheEntry` / `Nat` arguments threaded through `getProducts`.
* External collaborators are captured by their observable outcomes: the
  network by `FetchOutcome`, and the platform WHATWG URL parser — invoked
  by `new URL(...)` outside the `try` blocks of both service functions —
  by `BaseUrlConfig`, so that the uncaught `TypeError` on a nonempty but
  unparseable base URL is part of the model (`getProductsCall`,
  `getProductBySlugCall`).
-/

namespace MyLightGallery

/-- ASCII part of the JavaScript `\s` character class. -/
def jsIsSpace (c : Char) : Bool :=
  c = ' ' || c = '\t' || c = '\n' || c = '\r' || c = Char.ofNat 11 || c = Char.ofNat 12

/-- JS `String.prototype.trim` on a character list (both ends). -/
def jsTrimList (l : List Char) : List Char :=
  ((l.dropWhile jsIsSpace).reverse.dropWhile jsIsSpace).reverse

/-- Scan for `.replace(/\s+/g, ' ')`: `prevSpace` records whether
the previous character was whitespace, so every maximal whitespace run
emits exactly one space. -/
def collapseWsPlusAux (prevSpace : Bool) : List Char → List Char
  | [] => []
  | c :: rest =>
    if jsIsSpace c then
      if prevSpace then collapseWsPlusAux true rest
      else ' ' :: collapseWsPlusAux true rest
    else c :: collapseWsPlusAux false rest

/-- Model of `.replace(/\s+/g, ' ')`: every maximal whitespace run becomes one space. -/
def collapseWsPlus (l : List Char) : List Char :=
  collapseWsPlusAux false l

/-- One global pass of `.replace(/<[^>]+>/g, '')`: at each `<`, the regex
matches one-or-more non-`>` characters followed by `>`; on a match the
whole span is removed, otherwise the `<` is kept and scanning resumes
after it. Each step consumes at least one character, so fuel equal to the
input length (supplied by `removeTags`) is never exhausted; the fuel only
makes the recursion structural. -/
def removeTagsFuel : Nat → List Char → List Char
  | 0, l => l
  | _ + 1, [] => []
  | fuel + 1, c :: rest =>
    if c = '<' then
      let t := (rest.takeWhile (fun x => ¬ (x = '>'))).length
      if 1 ≤ t ∧ t < rest.length then removeTagsFuel fuel (rest.drop (t + 1))
      else c :: removeTagsFuel fuel rest
    else c :: removeTagsFuel fuel rest

/-- Model of `.replace(/<[^>]+>/g, '')`. -/
def removeTags (l : List Char) : List Char :=
  removeTagsFuel l.length l

/-- Model of `stripTags` from `wp.ts`:
`(value || '').replace(/<[^>]+>/g, '').replace(/\s+/g, ' ').trim()`. -/
def stripTags (value : Option String) : String :=
  String.mk (jsTrimList (collapseWsPlus (removeTags (value.getD "").data)))

/-- JS `\w` / word character for `\b` boundaries: `[A-Za-z0-9_]`. -/
def isWordChar (c : Char) : Bool :=
  c.isAlphanum || c = '_'

/-- Position before `l` is a `\b` boundary for a match starting with a word
character: the previous character (if any) must not be a word character. -/
def boundaryBefore (prev : Option Char) : Bool :=
  match prev with
  | none => true
  | some p => ¬ isWordChar p

/-- Position after a word character is a `\b` boundary when the next
character (if any) is not a word character. -/
def boundaryAfter (l : List Char) : Bool :=
  match l with
  | [] => true
  | c :: _ => ¬ isWordChar c

/-- Case-insensitive test that four characters spell `olio`. -/
def olioMatches (a b c d : Char) : Bool :=
  a.toLower = 'o' && b.toLower = 'l' && c.toLower = 'i' && d.toLower = 'o'

/-- Replacement chosen by the callback in `normalizeMediumText`: all-caps
matches become `ÓLEO`, capitalised matches `Óleo`, anything else `óleo`. -/
def olioReplacement (a b c d : Char) : List Char :=
  if a.isUpper ∧ b.isUpper ∧ c.isUpper ∧ d.isUpper then "ÓLEO".data
  else if a.isUpper then "Óleo".data
  else "óleo".data

/-- Global scan of `.replace(/\bolio\b/gi, ...)`; `prev` is the character
just before the current position in the original string (for `\b`). -/
def replaceOlio : Option Char → List Char → List Char
  | _, [] => []
  | prev, x :: b :: c :: d :: rest =>
    if boundaryBefore prev ∧ olioMatches x b c d ∧ boundaryAfter rest then
      olioReplacement x b c d ++ replaceOlio (some d) rest
    else x :: replaceOlio (some x) (b :: c :: d :: rest)
  | _, x :: xs => x :: replaceOlio (some x) xs

/-- Model of `normalizeMediumText` from `wp.ts`. -/
def normalizeMediumText (value : String) : String :=
  String.mk (replaceOlio none value.data)

/-- JS `String.prototype.replace` with a plain-string pattern: replaces the
first occurrence only (an empty pattern matches at position 0). -/
def replaceFirstList (pat repl : List Char) : List Char → List Char
  | [] => if pat = [] then repl else []
  | c :: rest =>
    if (c :: rest).take pat.length = pat then repl ++ (c :: rest).drop pat.length
    else c :: replaceFirstList pat repl rest

/-- Truthiness of a JS `string | null | undefined` value. -/
def optTruthy : Option String → Bool
  | some s => s ≠ ""
  | none => false

/-- JS `a || b` on two `string|null` values (falsy left operand: `null` or `""`). -/
def jsOrStr (a b : Option String) : Option String :=
  match a with
  | some s => if s = "" then b else some s
  | none => b

/-- Model of `normalizeImage` from `wp.ts`: `if (!src) return null;` then
`src.replace('http://', 'https://')` (first occurrence). -/
def normalizeImage (src : Option String) : Option String :=
  match src with
  | none => none
  | some s =>
    if s = "" then none
    else some (String.mk (replaceFirstList "http://".data "https://".data s.data))

/-- Numeric value of a run of decimal digit characters. -/
def digitsToNat (ds : List Char) : Nat :=
  ds.foldl (fun n c => 10 * n + (c.toNat - 48)) 0

/-- The exact value of a parsed JS decimal literal:
`(-1)^neg * mant * 10^exp10`. The representation is not canonical; it is
only ever formatted, never compared numerically. Idealises the source's
float64 `Number` by the exact decimal it was parsed from. -/
structure JsNum where
  neg : Bool
  mant : Nat
  exp10 : Int
deriving DecidableEq

/-- Optional exponent part (`e`/`E`, optional sign, digits), which must
consume the rest of the input; anything else is `NaN` (`none`). -/
def parseExpThen (mant : Nat) (exp10 : Int) (l : List Char) : Option (Nat × Int) :=
  match l with
  | [] => some (mant, exp10)
  | e :: r =>
    if e = 'e' ∨ e = 'E' then
      let signed : Int × List Char :=
        match r with
        | '+' :: rr => (1, rr)
        | '-' :: rr => (-1, rr)
        | _ => (1, r)
      let ed := signed.2.takeWhile Char.isDigit
      if ed = [] ∨ signed.2.drop ed.length ≠ [] then none
      else some (mant, exp10 + signed.1 * (digitsToNat ed : Int))
    else none

/-- Unsigned decimal literal (`digits`, `digits.`, `digits.digits`,
`.digits`), with optional exponent; must consume the whole input. Returns
mantissa and decimal exponent. -/
def parseUnsignedDec (l : List Char) : Option (Nat × Int) :=
  let ip := l.takeWhile Char.isDigit
  let r1 := l.drop ip.length
  match r1 with
  | '.' :: r2 =>
    let fp := r2.takeWhile Char.isDigit
    let r3 := r2.drop fp.length
    if ip = [] ∧ fp = [] then none
    else parseExpThen (digitsToNat (ip ++ fp)) (-(fp.length : Int)) r3
  | _ =>
    if ip = [] then none else parseExpThen (digitsToNat ip) 0 r1

/-- Model of `Number(string)` (ES `StringToNumber`) restricted to decimal literals:
whitespace-trimmed, empty string → `0`, optional sign; `none` models `NaN`
(hexadecimal/octal/binary and `Infinity` literals are outside the model). -/
def jsToNumber (s : String) : Option JsNum :=
  let l := jsTrimList s.data
  match l with
  | [] => some ⟨false, 0, 0⟩
  | '+' :: r => (parseUnsignedDec r).map (fun m => ⟨false, m.1, m.2⟩)
  | '-' :: r => (parseUnsignedDec r).map (fun m => ⟨true, m.1, m.2⟩)
  | _ => (parseUnsignedDec l).map (fun m => ⟨false, m.1, m.2⟩)

/-- Insert `,` after every third digit of a reversed digit list. -/
def groupRev : List Char → List Char
  | d1 :: d2 :: d3 :: d4 :: rest => d1 :: d2 :: d3 :: ',' :: groupRev (d4 :: rest)
  | l => l

/-- Magnitude in cents, rounded half-away-from-zero (the Intl default
rounding mode) to at most two fraction digits:
`round(mant * 10^(exp10 + 2))`. -/
def JsNum.cents (j : JsNum) : Nat :=
  match j.exp10 + 2 with
  | Int.ofNat k => j.mant * 10 ^ k
  | Int.negSucc k => (2 * j.mant + 10 ^ (k + 1)) / (2 * 10 ^ (k + 1))

/-- Model of `toLocaleString('en-US', \x7bminimumFractionDigits: 0,
maximumFractionDigits: 2\x7d)`: round to at most two fraction places, drop
trailing fraction zeros, group thousands with commas, minus sign for
negative inputs. -/
def formatEnUS (j : JsNum) : String :=
  let n := j.cents
  let ip := n / 100
  let fr := n % 100
  let ipStr := String.mk ((groupRev (toString ip).data.reverse).reverse)
  let body :=
    if fr = 0 then ipStr
    else if fr % 10 = 0 then ipStr ++ "." ++ toString (fr / 10)
    else if fr < 10 then ipStr ++ ".0" ++ toString fr
    else ipStr ++ "." ++ toString fr
  if j.neg then "-" ++ body else body

/-- The parsed operand of `formatPrice`:
`p && !Number.isNaN(Number(p)) ? Number(p) : null`. -/
def jsParsedPrice (o : Option String) : Option JsNum :=
  if optTruthy o then jsToNumber (o.getD "") else none

/-- Model of `formatPrice` from `wp.ts`. -/
def formatPrice (price regular : Option String) : Option String :=
  match jsParsedPrice price with
  | some q => some ("$" ++ formatEnUS q ++ " USD")
  | none =>
    match jsParsedPrice regular with
    | some q => some ("$" ++ formatEnUS q ++ " USD")
    | none => none

/-- Greedy `\d{2,3}` for the second group of the `deriveDimensions`
pattern (nothing follows it in the pattern, so no backtracking): up to
three leading digits, at least two required. -/
def grabDigits23 (l : List Char) : Option (List Char) :=
  let ds := (l.takeWhile Char.isDigit).take 3
  if 2 ≤ ds.length then some ds else none

/-- Matches `\s*[xX]\s*\d{2,3}` at the front of `l`, returning the second
capture group (`[xX]` and digits are disjoint from `\s`, so the greedy
`\s*` never needs to backtrack). -/
def matchXDigits (l : List Char) : Option (List Char) :=
  match l.dropWhile jsIsSpace with
  | x :: l2 =>
    if x = 'x' ∨ x = 'X' then grabDigits23 (l2.dropWhile jsIsSpace) else none
  | [] => none

/-- Attempts `(\d{2,3})\s*[xX]\s*(\d{2,3})` at the current position: the
first group is greedy, trying three digits and backtracking to two. -/
def matchDimPairAt (l : List Char) : Option (List Char × List Char) :=
  let digs := (l.takeWhile Char.isDigit).take 3
  if digs.length = 3 then
    match matchXDigits (l.drop 3) with
    | some g2 => some (digs, g2)
    | none =>
      match matchXDigits (l.drop 2) with
      | some g2 => some (digs.take 2, g2)
      | none => none
  else if digs.length = 2 then
    (matchXDigits (l.drop 2)).map (fun g2 => (digs, g2))
  else none

/-- First (leftmost) match of `/(\d{2,3})\s*[xX]\s*(\d{2,3})/`. -/
def findDimPair : List Char → Option (List Char × List Char)
  | [] => none
  | c :: rest =>
    match matchDimPairAt (c :: rest) with
    | some p => some p
    | none => findDimPair rest

/-- The upstream `dimensions` object (`width`/`height`/`length` fields,
each possibly absent; `length` is rendered `len` here, it is never read by
the source). -/
structure RawDims where
  width : Option String := none
  height : Option String := none
  len : Option String := none
deriving DecidableEq

/-- Model of `deriveDimensions` from `wp.ts` (title-scrubbing variant: results carry
the `" in"` unit suffix). -/
def deriveDimensions (name : String) (dims : Option RawDims) : Option String :=
  if optTruthy (dims.bind RawDims.width) ∧ optTruthy (dims.bind RawDims.height) then
    some (((dims.bind RawDims.width).getD "") ++ " x " ++
      ((dims.bind RawDims.height).getD "") ++ " in")
  else
    match findDimPair name.data with
    | some (g1, g2) => some (String.mk g1 ++ " x " ++ String.mk g2 ++ " in")
    | none => none

/-- Greedy `\d{2,3}\b` for the second group of the title-dimension pattern:
three digits if a `\b` boundary follows, else two digits with a boundary. -/
def grabDigits23Boundary (l : List Char) : Option Nat :=
  if (l.take 3).length = 3 ∧ (l.take 3).all Char.isDigit ∧ boundaryAfter (l.drop 3) then
    some 3
  else if (l.take 2).length = 2 ∧ (l.take 2).all Char.isDigit ∧ boundaryAfter (l.drop 2) then
    some 2
  else none

/-- Length consumed by the optional greedy group `(?:\s*in\.?)?` (zero when
the group does not match). -/
def matchOptIn (l : List Char) : Nat :=
  let s := (l.takeWhile jsIsSpace).length
  match l.drop s with
  | 'i' :: 'n' :: rest => s + 2 + (match rest with | '.' :: _ => 1 | _ => 0)
  | _ => 0

/-- Matches `\s*[xX]\s*\d{2,3}\b(?:\s*in\.?)?` at the front of `l`,
returning the length consumed. -/
def matchDimTailLen (l : List Char) : Option Nat :=
  let s1 := (l.takeWhile jsIsSpace).length
  match l.drop s1 with
  | x :: rest =>
    if x = 'x' ∨ x = 'X' then
      let s2 := (rest.takeWhile jsIsSpace).length
      match grabDigits23Boundary (rest.drop s2) with
      | some k2 => some (s1 + 1 + s2 + k2 + matchOptIn ((rest.drop s2).drop k2))
      | none => none
    else none
  | [] => none

/-- Length of a match of `/\b\d{2,3}\s*[xX]\s*\d{2,3}\b(?:\s*in\.?)?/`
starting exactly at `l`; `prevWord` says whether a word character precedes
(which defeats the leading `\b`). The leading `\d{2,3}` is greedy, trying
three digits then backtracking to two. -/
def matchDimAt (prevWord : Bool) (l : List Char) : Option Nat :=
  if prevWord then none
  else if (l.take 3).length = 3 ∧ (l.take 3).all Char.isDigit then
    match matchDimTailLen (l.drop 3) with
    | some t => some (3 + t)
    | none =>
      match matchDimTailLen (l.drop 2) with
      | some t => some (2 + t)
      | none => none
  else if (l.take 2).length = 2 ∧ (l.take 2).all Char.isDigit then
    (matchDimTailLen (l.drop 2)).map (fun t => 2 + t)
  else none

/-- Model of `.replace(dimensionPattern, '')` — no `g` flag, so only the leftmost
match is removed; `prevWord` tracks the previous original character. -/
def removeDimPattern (prevWord : Bool) : List Char → List Char
  | [] => []
  | c :: rest =>
    match matchDimAt prevWord (c :: rest) with
    | some n => (c :: rest).drop n
    | none => c :: removeDimPattern (isWordChar c) rest

/-- Characters of the class `[()\-–—]`. -/
def isDashParen (c : Char) : Bool :=
  c = '(' || c = ')' || c = '-' || c = '–' || c = '—'

/-- Scan for `.replace(/[()\-–—]+/g, ' ')`: `prevDash` records
whether the previous character was in the class, so every maximal run
emits exactly one space. -/
def replaceDashParensAux (prevDash : Bool) : List Char → List Char
  | [] => []
  | c :: rest =>
    if isDashParen c then
      if prevDash then replaceDashParensAux true rest
      else ' ' :: replaceDashParensAux true rest
    else c :: replaceDashParensAux false rest

/-- Model of `.replace(/[()\-–—]+/g, ' ')`. -/
def replaceDashParens (l : List Char) : List Char :=
  replaceDashParensAux false l

/-- Scan for `.replace(/\s{2,}/g, ' ')`: a whitespace character
opens a collapsed run (emitting one space) only when another whitespace
character follows; `inRun` skips the remainder of a collapsed run; a lone
whitespace character is kept as it is. -/
def collapseWsTwoAux (inRun : Bool) : List Char → List Char
  | [] => []
  | c :: rest =>
    if jsIsSpace c then
      if inRun then collapseWsTwoAux true rest
      else
        match rest with
        | d :: _ =>
          if jsIsSpace d then ' ' :: collapseWsTwoAux true rest
          else c :: collapseWsTwoAux false rest
        | [] => [c]
    else c :: collapseWsTwoAux false rest

/-- Model of `.replace(/\s{2,}/g, ' ')`: only runs of two or more whitespace
characters collapse to a single space. -/
def collapseWsTwo (l : List Char) : List Char :=
  collapseWsTwoAux false l

/-- The `cleaned` pipeline of `stripDimensionsFromTitle`. -/
def dimCleanedTitle (title : String) : String :=
  String.mk (jsTrimList (collapseWsTwo (replaceDashParens (removeDimPattern false title.data))))

/-- Model of `stripDimensionsFromTitle` from `wp.ts`. -/
def stripDimensionsFromTitle (title : String) (dimensions : Option String) : String :=
  let cleaned := dimCleanedTitle title
  if cleaned ≠ "" then cleaned
  else if optTruthy dimensions then
    let r := String.mk (jsTrimList (collapseWsTwo
      (replaceFirstList (dimensions.getD "").data [] title.data)))
    if r = "" then title else r
  else title

/-- Matches `src\s*=\s*['"]([^'">]+)['"]` (case-insensitive `src`) at the
front of `l`, returning the capture group. The greedy capture takes the
maximal run of characters outside quote and `>`; the character right after
it must then be a quote — shortening the run cannot make a quote appear, so
no further backtracking exists. -/
def matchSrcEq (l : List Char) : Option (List Char) :=
  if ((l.take 3).map Char.toLower) = ['s', 'r', 'c'] then
    match (l.drop 3).dropWhile jsIsSpace with
    | '=' :: l3 =>
      match l3.dropWhile jsIsSpace with
      | q :: l5 =>
        if q = '\'' ∨ q = '"' then
          let cap := l5.takeWhile (fun c => ¬ (c = '\'' ∨ c = '"' ∨ c = '>'))
          if cap ≠ [] then
            match l5.drop cap.length with
            | q2 :: _ => if q2 = '\'' ∨ q2 = '"' then some cap else none
            | [] => none
          else none
        else none
      | [] => none
    | _ => none
  else none

/-- The `[^>]+` of the `<img>` pattern is greedy with backtracking: try the
longest run of non-`>` characters, then shorter ones, until the `src=`
tail matches right after the consumed run (at least one character). -/
def tryImgTail (l : List Char) : Nat → Option (List Char)
  | 0 => none
  | k + 1 =>
    match matchSrcEq (l.drop (k + 1)) with
    | some cap => some cap
    | none => tryImgTail l k

/-- Match of `/<img[^>]+src\s*=\s*['"]([^'">]+)['"]/i` starting here. -/
def matchImgAt (l : List Char) : Option (List Char) :=
  if ((l.take 4).map Char.toLower) = ['<', 'i', 'm', 'g'] then
    tryImgTail (l.drop 4) (((l.drop 4).takeWhile (fun c => ¬ (c = '>'))).length)
  else none

/-- Leftmost match of the `<img ... src>` pattern. -/
def findImgSrc : List Char → Option (List Char)
  | [] => none
  | c :: rest =>
    match matchImgAt (c :: rest) with
    | some cap => some cap
    | none => findImgSrc rest

/-- Model of `extractFirstImageSrc` from `wp.ts`. -/
def extractFirstImageSrc (html : Option String) : Option String :=
  match html with
  | none => none
  | some h =>
    if h = "" then none
    else normalizeImage ((findImgSrc h.data).map String.mk)

/-- One element of the upstream `images` array. -/
structure RawImage where
  src : Option String := none
deriving DecidableEq

/-- One raw upstream product record (the fields the source reads). -/
structure RawItem where
  id : Int := 0
  name : Option String := none
  slug : String := ""
  permalink : String := ""
  images : List RawImage := []
  price : Option String := none
  regular_price : Option String := none
  dimensions : Option RawDims := none
  description : Option String := none
deriving DecidableEq

/-- The display record built by the mapper (`ProductCard` in `wp.ts`). -/
structure ProductCard where
  id : Int
  title : String
  slug : String
  link : String
  image : Option String
  priceText : Option String
  dimensions : Option String
  description : Option String
deriving DecidableEq

/-- Model of `mapProduct` from `wp.ts`. -/
def mapProduct (item : RawItem) : Option ProductCard :=
  let rawTitle := normalizeMediumText (stripTags item.name)
  if rawTitle = "" then none
  else
    let dimensions := deriveDimensions rawTitle item.dimensions
    let title := stripDimensionsFromTitle rawTitle dimensions
    let priceText := formatPrice item.price item.regular_price
    let image := jsOrStr (normalizeImage (item.images.head?.bind RawImage.src))
      (extractFirstImageSrc item.description)
    let descriptionRaw := stripTags item.description
    let description := if descriptionRaw = "" then none
      else some (normalizeMediumText descriptionRaw)
    some ⟨item.id, title, item.slug, item.permalink, image, priceText, dimensions,
      description⟩

/-- The single module-wide cache slot entry. -/
structure CacheEntry where
  items : List ProductCard
  limit : Nat
  expiresAt : Nat
deriving DecidableEq

/-- Model of `getCachedProducts` from `wp.ts` (module state, TTL and clock explicit). -/
def getCachedProducts (ttl : Nat) (cache : Option CacheEntry) (now : Nat)
    (limit : Nat) : Option (List ProductCard) :=
  match cache with
  | none => none
  | some e =>
    if e.limit < limit then none
    else if 0 < ttl ∧ now < e.expiresAt then some (e.items.take limit) else none

/-- Model of `getStaleProducts` from `wp.ts`. -/
def getStaleProducts (cache : Option CacheEntry) (limit : Nat) :
    Option (List ProductCard) :=
  match cache with
  | none => none
  | some e => if e.limit < limit then none else some (e.items.take limit)

/-- Model of `setCache` from `wp.ts`: unconditionally overwrite the slot. -/
def setCache (items : List ProductCard) (limit now ttl : Nat) : Option CacheEntry :=
  some ⟨items, limit, now + ttl⟩

/-- One upstream interaction as observed by the `try` block of the service:
the `fetch` call rejects, or resolves with a non-OK response, or resolves
OK but `res.json()` rejects, or resolves OK with a parsed JSON array. -/
inductive FetchOutcome where
  | fetchThrow : FetchOutcome
  | respNotOk : Nat → FetchOutcome
  | respOkBadJson : FetchOutcome
  | respOk : List RawItem → FetchOutcome
deriving DecidableEq

/-- An upstream interaction counted as failed by the service (anything but
an OK response with parseable JSON). -/
def FetchOutcome.fails : FetchOutcome → Bool
  | .respOk _ => false
  | _ => true

/-- Model of `items.map(mapProduct).filter(item => Boolean(item?.image))` — the
elements that pass the filter are necessarily non-null; the JS type guard
leaves the unwrapping implicit, `reduceOption` makes it explicit. -/
def productsOfItems (items : List RawItem) : List ProductCard :=
  ((items.map mapProduct).filter
    (fun o => optTruthy (o.bind ProductCard.image))).reduceOption

/-- The `try` block of `getProducts` as an `Except`: a thrown value is an
`error` (absorbed by the `catch`), an early or normal `return` is an `ok`
carrying the returned list and the cache slot after the block. The
`buildUrl` configuration throw is included so that its unreachability under
the base-URL guard is part of the model. -/
def productsTryBlock (hasBase : Bool) (cache : Option CacheEntry)
    (stale : Option (List ProductCard)) (now ttl limit : Nat) (up : FetchOutcome) :
    Except String (List ProductCard × Option CacheEntry) :=
  if hasBase = false then .error "Missing WP_API_BASE"
  else
    match up with
    | .fetchThrow => .error "fetch failed"
    | .respNotOk _ => .ok (stale.getD [], cache)
    | .respOkBadJson => .error "json parse failed"
    | .respOk items =>
      let products := productsOfItems items
      .ok (products, setCache products limit now ttl)

/-- Return value and state after one `getProducts` call; `fetched` records
whether the upstream request was issued. -/
structure GetProductsResult where
  products : List ProductCard
  cache : Option CacheEntry
  fetched : Bool
deriving DecidableEq

/-- Model of `getProducts` from `wp.ts`, with the module state (`productsCache`),
the clock and the upstream behaviour passed explicitly. Every `error` of
the `try` block is mapped by the `catch` to the stale snapshot or `[]`. -/
def getProducts (hasBase : Bool) (ttl : Nat) (cache : Option CacheEntry)
    (now : Nat) (up : FetchOutcome) (limit : Nat) : GetProductsResult :=
  if hasBase = false then ⟨[], cache, false⟩
  else
    match getCachedProducts ttl cache now limit with
    | some cached => ⟨cached, cache, false⟩
    | none =>
      let stale := getStaleProducts cache limit
      match productsTryBlock hasBase cache stale now ttl limit up with
      | .ok (ps, c) => ⟨ps, c, true⟩
      | .error _ => ⟨stale.getD [], cache, true⟩

/-- Model of `getProductBySlug` from `wp.ts`; the upstream already filters by slug,
the code takes `items[0]`. -/
def getProductBySlug (hasBase : Bool) (up : FetchOutcome) : Option ProductCard :=
  if hasBase = false then none
  else
    match up with
    | .fetchThrow => none
    | .respNotOk _ => none
    | .respOkBadJson => none
    | .respOk items =>
      match items.head? with
      | none => none
      | some item =>
        match mapProduct item with
        | some m => if optTruthy m.image then some m else none
        | none => none

/-- Model of `getProductBySlug` paired with the module cache slot: the source
function never reads or writes `productsCache`, so the state passes
through unchanged; this definition makes that explicit. -/
def getProductBySlugRun (hasBase : Bool) (up : FetchOutcome)
    (cache : Option CacheEntry) : Option ProductCard × Option CacheEntry :=
  (getProductBySlug hasBase up, cache)

/-- Model of `env[key] ?? process.env[key]` from `env.ts`. -/
def envLookup (buildEnv procEnv : String → Option String) (key : String) :
    Option String :=
  match buildEnv key with
  | some v => some v
  | none => procEnv key

/-- Model of `getEnvValue` from `env.ts`, over explicit environment maps; the
`string | string[]` parameter is modelled by its list form (the source's
`toArray` wraps a single key). -/
def getEnvValue (buildEnv procEnv : String → Option String) :
    List String → Option String
  | [] => none
  | k :: ks =>
    match envLookup buildEnv procEnv k with
    | some v => some v
    | none => getEnvValue buildEnv procEnv ks

/-- The resolved base-URL configuration together with the verdict of the
platform WHATWG URL parser on the composed request URL. Both service
functions run `new URL(baseUrl + path)` outside their `try` block after
guarding only on base-URL presence, so — like the network, which the model
captures by its observable `FetchOutcome` — the external URL parser is
captured by its observable outcome: `present parses` is a nonempty base
URL for which `new URL(...)` succeeds when `parses = true` and throws a
`TypeError` when `parses = false` (as it does for a scheme-less value such
as `WP_API_BASE = "example.com"`). -/
inductive BaseUrlConfig where
  | absent : BaseUrlConfig
  | present : Bool → BaseUrlConfig
deriving DecidableEq

/-- Model of one `getProducts` call at the service boundary, including the
code before the `try` block: the base-URL guard, the fresh-cache
short-circuit, the stale snapshot, and the `new URL(...)` construction —
which sits outside the `try`, so its `TypeError` on an unparseable base
URL is caught by nothing and the call rejects (`error`). -/
def getProductsCall (base : BaseUrlConfig) (ttl : Nat) (cache : Option CacheEntry)
    (now : Nat) (up : FetchOutcome) (limit : Nat) :
    Except String GetProductsResult :=
  match base with
  | .absent => .ok ⟨[], cache, false⟩
  | .present parses =>
    match getCachedProducts ttl cache now limit with
    | some cached => .ok ⟨cached, cache, false⟩
    | none =>
      let stale := getStaleProducts cache limit
      if parses then
        match productsTryBlock true cache stale now ttl limit up with
        | .ok (ps, c) => .ok ⟨ps, c, true⟩
        | .error _ => .ok ⟨stale.getD [], cache, true⟩
      else .error "Invalid URL"

/-- Model of one `getProductBySlug` call at the service boundary,
including the `new URL(...)` construction outside the `try` block: after
the presence guard, an unparseable nonempty base URL makes the call
reject before any fetch; otherwise the call behaves as the
`try`-protected body. -/
def getProductBySlugCall (base : BaseUrlConfig) (up : FetchOutcome) :
    Except String (Option ProductCard) :=
  match base with
  | .absent => .ok none
  | .present parses =>
    if parses then .ok (getProductBySlug true up)
    else .error "Invalid URL"

/-- C3: `getCachedProducts limit` returns the first `limit` cached items
exactly when an entry exists, its stored limit is at least the requested
limit, the configured TTL is strictly positive and the current time is
strictly before the entry's expiry; in every other case it returns `none`
(so `getProducts` is not served fresh from cache in those cases). -/
theorem getCachedProducts_fresh_iff (ttl : Nat) (cache : Option CacheEntry)
    (now limit : Nat) (xs : List ProductCard) :
    getCachedProducts ttl cache now limit = some xs ↔
      ∃ e, cache = some e ∧ limit ≤ e.limit ∧ 0 < ttl ∧ now < e.expiresAt ∧
        xs = e.items.take limit := by
  cases cache with
  | none => simp [getCachedProducts]
  | some e =>
    simp only [getCachedProducts, Option.some.injEq]
    constructor
    · intro h
      by_cases h1 : e.limit < limit
      · rw [if_pos h1] at h
        exact absurd h (by simp)
      · rw [if_neg h1] at h
        by_cases h2 : 0 < ttl ∧ now < e.expiresAt
        · rw [if_pos h2] at h
          exact ⟨e, rfl, by omega, h2.1, h2.2, (Option.some.injEq _ _).mp h |>.symm⟩
        · rw [if_neg h2] at h
          exact absurd h (by simp)
    · rintro ⟨e', he', hlim, httl, hexp, hxs⟩
      subst he'
      rw [if_neg (by omega), if_pos ⟨httl, hexp⟩, hxs]

theorem getCachedProducts_fresh_iff_witness :
    getCachedProducts 1 (some ⟨[], 50, 10⟩) 3 20 = some [] :=
  (getCachedProducts_fresh_iff 1 (some ⟨[], 50, 10⟩) 3 20 []).mpr
    ⟨⟨[], 50, 10⟩, rfl, by decide, by decide, by decide, rfl⟩

/-- C5: `mapProduct` returns `none` exactly when the item's name, after
tag-stripping and medium-text normalization, is the empty string; for a
non-empty stripped name it always returns a card. -/
theorem mapProduct_none_iff_title_empty (item : RawItem) :
    (mapProduct item = none ↔ normalizeMediumText (stripTags item.name) = "") ∧
    (normalizeMediumText (stripTags item.name) ≠ "" →
      (mapProduct item).isSome = true) := by
  constructor
  · by_cases h : normalizeMediumText (stripTags item.name) = "" <;>
      simp [mapProduct, h]
  · intro h
    simp [mapProduct, h]

theorem mapProduct_none_iff_title_empty_witness :
    (mapProduct ⟨0, some "Portrait", "p", "l", [], none, none, none, none⟩).isSome
      = true :=
  (mapProduct_none_iff_title_empty
    ⟨0, some "Portrait", "p", "l", [], none, none, none, none⟩).2 (by decide)

/-- C7 counterexample: the claim as stated says `getProductBySlug` never
throws, but with a nonempty base URL that the platform URL parser rejects
(e.g. a scheme-less `WP_API_BASE`), the presence guard passes and the
`new URL(...)` constructed outside the `try` block throws an uncaught
`TypeError` before any fetch — the call rejects even for a perfectly
healthy upstream. -/
theorem getProductBySlug_throws_on_malformed_base :
    getProductBySlugCall (.present false) (.respOk []) = .error "Invalid URL" := rfl

/-- C7 (amended): `getProductBySlug` returns `none` whenever the upstream
call fails (thrown fetch, non-OK status, or JSON parse failure), when the
response array is empty, when the first item fails to map, and when the
mapped card has no truthy image; it neither reads nor writes the cache
slot; and — provided the composed request URL parses, the nonempty
malformed base URL being the one uncaught throw — absent or parseable
configurations never reject. -/
theorem getProductBySlugCall_absent_cases :
    (∀ (hasBase : Bool) (up : FetchOutcome) (cache : Option CacheEntry),
        (getProductBySlugRun hasBase up cache).2 = cache) ∧
    (∀ up, getProductBySlugCall .absent up = .ok none) ∧
    (∀ up, (getProductBySlugCall (.present true) up).isOk = true) ∧
    (∀ up, up.fails = true → getProductBySlug true up = none) ∧
    (getProductBySlug true (.respOk []) = none) ∧
    (∀ (items : List RawItem) (item : RawItem),
        items.head? = some item → mapProduct item = none →
        getProductBySlug true (.respOk items) = none) ∧
    (∀ (items : List RawItem) (item : RawItem) (c : ProductCard),
        items.head? = some item → mapProduct item = some c →
        optTruthy c.image = false →
        getProductBySlug true (.respOk items) = none) := by
  refine ⟨fun _ _ _ => rfl, fun _ => rfl, fun _ => rfl, ?_, rfl, ?_, ?_⟩
  · intro up h
    cases up with
    | fetchThrow => rfl
    | respNotOk s => rfl
    | respOkBadJson => rfl
    | respOk items => exact absurd h (by simp [FetchOutcome.fails])
  · intro items item hhead hmap
    simp [getProductBySlug, hhead, hmap]
  · intro items item c hhead hmap himg
    simp [getProductBySlug, hhead, hmap, himg]

theorem getProductBySlugCall_absent_cases_witness :
    getProductBySlug true .fetchThrow = none :=
  getProductBySlugCall_absent_cases.2.2.2.1 .fetchThrow rfl

/-- C9: `getEnvValue` returns the value at the first candidate key (in the
given order) that is defined in either layered source, with the build-time
environment consulted before the process environment for each key, and
`none` when no candidate key is defined in either source. -/
theorem getEnvValue_first_defined (buildEnv procEnv : String → Option String)
    (keys : List String) :
    (∀ k, keys.find? (fun k => (envLookup buildEnv procEnv k).isSome) = some k →
        getEnvValue buildEnv procEnv keys = envLookup buildEnv procEnv k) ∧
    ((∀ k ∈ keys, envLookup buildEnv procEnv k = none) →
        getEnvValue buildEnv procEnv keys = none) := by
  induction keys with
  | nil =>
    exact ⟨fun k h => by simp [List.find?] at h, fun _ => rfl⟩
  | cons a ks ih =>
    constructor
    · intro k h
      simp only [List.find?] at h
      cases hE : envLookup buildEnv procEnv a with
      | some v =>
        rw [hE] at h
        simp only [Option.isSome_some] at h
        have hk : a = k := by
          simpa using h
        subst hk
        simp [getEnvValue, hE]
      | none =>
        rw [hE] at h
        simp only [Option.isSome_none] at h
        have hk := ih.1 k (by simpa using h)
        simp [getEnvValue, hE, hk]
    · intro h
      have ha : envLookup buildEnv procEnv a = none := h a (by simp)
      have hks := ih.2 (fun k hk => h k (by simp [hk]))
      simp [getEnvValue, ha, hks]

theorem getEnvValue_first_defined_witness :
    getEnvValue (fun k => if k = "WP_API_BASE" then some "https://api" else none)
      (fun _ => none) ["WP_API_BASE", "PUBLIC_WP_API_BASE"] = some "https://api" :=
  (getEnvValue_first_defined
    (fun k => if k = "WP_API_BASE" then some "https://api" else none)
    (fun _ => none) ["WP_API_BASE", "PUBLIC_WP_API_BASE"]).1 "WP_API_BASE" (by decide)

/-- Helper: JS `a || b` keeps a truthy left operand and otherwise yields
the right operand. -/
theorem jsOrStr_eq (a b : Option String) :
    (optTruthy a = true → jsOrStr a b = a) ∧
    (optTruthy a = false → jsOrStr a b = b) := by
  cases a with
  | none => exact ⟨fun h => by simp [optTruthy] at h, fun _ => rfl⟩
  | some s =>
    constructor
    · intro h
      have hs : s ≠ "" := by simpa [optTruthy] using h
      simp [jsOrStr, hs]
    · intro h
      have hs : s = "" := by simpa [optTruthy] using h
      simp [jsOrStr, hs]

/-- C1 counterexample: the claim as stated quantifies over every
configuration, but with a nonempty base URL that the platform URL parser
rejects (e.g. `WP_API_BASE = "example.com"`, scheme-less), the presence
guard passes and, on a cache miss, the `new URL(...)` constructed outside
the `try` block throws an uncaught `TypeError` — the call rejects past the
service boundary even for a perfectly healthy upstream. -/
theorem getProducts_throws_on_malformed_base :
    getProductsCall (.present false) 5 none 0 (.respOk []) 50
      = .error "Invalid URL" := rfl

/-- C1 (amended): with no configured base URL, `getProducts` returns `[]`
without touching the cache slot or issuing an upstream request; and for
every configuration whose composed request URL parses, the call never
rejects — every value thrown inside the `try` block (fetch rejection,
JSON parse rejection, and the `buildUrl` configuration throw) is caught
and mapped to the stale snapshot or `[]`. Only a nonempty base URL
rejected by the URL parser escapes, via the uncaught `new URL` throw. -/
theorem getProductsCall_fail_soft (ttl : Nat) (cache : Option CacheEntry)
    (now limit : Nat) (up : FetchOutcome) :
    getProductsCall .absent ttl cache now up limit = .ok ⟨[], cache, false⟩ ∧
    (getProductsCall (.present true) ttl cache now up limit).isOk = true ∧
    (∀ msg, productsTryBlock true cache (getStaleProducts cache limit) now ttl limit up
        = .error msg →
      getCachedProducts ttl cache now limit = none →
      getProductsCall (.present true) ttl cache now up limit =
        .ok ⟨(getStaleProducts cache limit).getD [], cache, true⟩) := by
  refine ⟨rfl, ?_, ?_⟩
  · unfold getProductsCall
    cases hm : getCachedProducts ttl cache now limit with
    | some cached => rfl
    | none =>
      cases hb : productsTryBlock true cache (getStaleProducts cache limit)
          now ttl limit up with
      | ok pc =>
        obtain ⟨ps, c⟩ := pc
        simp only [hb]
        rfl
      | error e =>
        simp only [hb]
        rfl
  · intro msg herr hmiss
    simp [getProductsCall, hmiss, herr]

theorem getProductsCall_fail_soft_witness :
    getProductsCall (.present true) 0 none 5 .fetchThrow 50 = .ok ⟨[], none, true⟩ :=
  (getProductsCall_fail_soft 0 none 5 50 .fetchThrow).2.2 "fetch failed" rfl rfl

/-- C2: on a cache miss with a failing upstream interaction (non-OK
response, fetch rejection or JSON parse rejection), `getProducts` leaves
the cache slot unchanged and returns the first `limit` items of a stored
entry whose stored limit covers the request — freshness ignored — and `[]`
otherwise. -/
theorem getProducts_stale_on_failure (ttl now limit : Nat)
    (cache : Option CacheEntry) (up : FetchOutcome)
    (hfail : up.fails = true)
    (hmiss : getCachedProducts ttl cache now limit = none) :
    (getProducts true ttl cache now up limit).cache = cache ∧
    (∀ e, cache = some e → limit ≤ e.limit →
      (getProducts true ttl cache now up limit).products = e.items.take limit) ∧
    (∀ e, cache = some e → e.limit < limit →
      (getProducts true ttl cache now up limit).products = []) ∧
    (cache = none → (getProducts true ttl cache now up limit).products = []) := by
  have hres : getProducts true ttl cache now up limit =
      ⟨(getStaleProducts cache limit).getD [], cache, true⟩ := by
    cases up with
    | fetchThrow => simp [getProducts, hmiss, productsTryBlock]
    | respNotOk s => simp [getProducts, hmiss, productsTryBlock]
    | respOkBadJson => simp [getProducts, hmiss, productsTryBlock]
    | respOk items => simp [FetchOutcome.fails] at hfail
  refine ⟨by rw [hres], ?_, ?_, ?_⟩
  · intro e he hle
    have hnl : ¬ e.limit < limit := by omega
    rw [hres]
    simp [getStaleProducts, he, hnl]
  · intro e he hlt
    rw [hres]
    simp [getStaleProducts, he, hlt]
  · intro he
    rw [hres]
    simp [getStaleProducts, he]

theorem getProducts_stale_on_failure_witness :
    (getProducts true 5
        (some ⟨[⟨1, "T", "s", "l", some "i", none, none, none⟩], 50, 10⟩)
        20 (.respNotOk 500) 50).products
      = [⟨1, "T", "s", "l", some "i", none, none, none⟩] :=
  ((getProducts_stale_on_failure 5 20 50
      (some ⟨[⟨1, "T", "s", "l", some "i", none, none, none⟩], 50, 10⟩)
      (.respNotOk 500) rfl (by decide)).2.1
    ⟨[⟨1, "T", "s", "l", some "i", none, none, none⟩], 50, 10⟩ rfl (by decide))

/-- C4: if a first `getProducts` call misses the cache and succeeds (the
upstream honours `per_page`, returning at most `limit` items), a second
call with the resulting cache state inside the TTL window returns the
identical sequence from cache, and only the first call issues an upstream
fetch. -/
theorem getProducts_idempotent_within_ttl (ttl : Nat) (cache0 : Option CacheEntry)
    (now1 now2 limit : Nat) (items : List RawItem) (up2 : FetchOutcome)
    (httl : 0 < ttl)
    (hmiss : getCachedProducts ttl cache0 now1 limit = none)
    (hlen : items.length ≤ limit)
    (hwin : now2 < now1 + ttl) :
    (getProducts true ttl (getProducts true ttl cache0 now1 (.respOk items) limit).cache
        now2 up2 limit).products
      = (getProducts true ttl cache0 now1 (.respOk items) limit).products ∧
    (getProducts true ttl cache0 now1 (.respOk items) limit).fetched = true ∧
    (getProducts true ttl (getProducts true ttl cache0 now1 (.respOk items) limit).cache
        now2 up2 limit).fetched = false := by
  have h1 : getProducts true ttl cache0 now1 (.respOk items) limit =
      ⟨productsOfItems items, some ⟨productsOfItems items, limit, now1 + ttl⟩, true⟩ := by
    simp [getProducts, hmiss, productsTryBlock, setCache]
  have hplen : (productsOfItems items).length ≤ limit := by
    have hro := List.reduceOption_length_le
      ((items.map mapProduct).filter (fun o => optTruthy (o.bind ProductCard.image)))
    have hf := List.length_filter_le
      (fun o => optTruthy (o.bind ProductCard.image)) (items.map mapProduct)
    have hm : (items.map mapProduct).length = items.length := List.length_map _ _
    unfold productsOfItems
    omega
  have htake : (productsOfItems items).take limit = productsOfItems items :=
    List.take_of_length_le hplen
  have hfresh : getCachedProducts ttl
      (some ⟨productsOfItems items, limit, now1 + ttl⟩) now2 limit
      = some (productsOfItems items) := by
    simp [getCachedProducts, httl, hwin, htake]
  have h2 : getProducts true ttl (some ⟨productsOfItems items, limit, now1 + ttl⟩)
      now2 up2 limit
      = ⟨productsOfItems items, some ⟨productsOfItems items, limit, now1 + ttl⟩, false⟩ := by
    simp [getProducts, hfresh]
  have hc1 : (getProducts true ttl cache0 now1 (.respOk items) limit).cache
      = some ⟨productsOfItems items, limit, now1 + ttl⟩ := by rw [h1]
  have hp1 : (getProducts true ttl cache0 now1 (.respOk items) limit).products
      = productsOfItems items := by rw [h1]
  have hf1 : (getProducts true ttl cache0 now1 (.respOk items) limit).fetched = true := by
    rw [h1]
  refine ⟨?_, hf1, ?_⟩
  · rw [hc1, h2, hp1]
  · rw [hc1, h2]

theorem getProducts_idempotent_within_ttl_witness :
    (getProducts true 5 (getProducts true 5 none 0 (.respOk []) 50).cache
        3 .fetchThrow 50).products
      = (getProducts true 5 none 0 (.respOk []) 50).products ∧
    (getProducts true 5 none 0 (.respOk []) 50).fetched = true ∧
    (getProducts true 5 (getProducts true 5 none 0 (.respOk []) 50).cache
        3 .fetchThrow 50).fetched = false :=
  getProducts_idempotent_within_ttl 5 none 0 3 50 [] .fetchThrow
    (by decide) rfl (by decide) (by decide)

/-- C6: a mapped card's image is the normalized first product image
(`images[0].src`) when that is truthy, else the first `<img src>`
extracted from the description HTML (possibly absent); the freshly fetched
`getProducts` result keeps exactly the cards with a truthy image, so every
card in it has one — imageless items are dropped silently, not as an
error. -/
theorem mapProduct_image_resolution (item : RawItem) :
    (∀ c, mapProduct item = some c →
      (optTruthy (normalizeImage (item.images.head?.bind RawImage.src)) = true →
        c.image = normalizeImage (item.images.head?.bind RawImage.src)) ∧
      (optTruthy (normalizeImage (item.images.head?.bind RawImage.src)) = false →
        c.image = extractFirstImageSrc item.description)) ∧
    (∀ (items : List RawItem) (c : ProductCard),
      c ∈ productsOfItems items → optTruthy c.image = true) ∧
    (∀ (ttl : Nat) (cache : Option CacheEntry) (now limit : Nat)
        (items : List RawItem),
      getCachedProducts ttl cache now limit = none →
      (getProducts true ttl cache now (.respOk items) limit).products =
        productsOfItems items) := by
  refine ⟨?_, ?_, ?_⟩
  · intro c hc
    by_cases h : normalizeMediumText (stripTags item.name) = ""
    · simp [mapProduct, h] at hc
    · simp only [mapProduct, if_neg h, Option.some.injEq] at hc
      subst hc
      exact ⟨fun ht => (jsOrStr_eq _ _).1 ht, fun hf => (jsOrStr_eq _ _).2 hf⟩
  · intro items c hcmem
    unfold productsOfItems at hcmem
    rw [List.reduceOption_mem_iff] at hcmem
    exact (List.mem_filter.mp hcmem).2
  · intro ttl cache now limit items hmiss
    simp [getProducts, hmiss, productsTryBlock]

theorem mapProduct_image_resolution_witness :
    (getProducts true 5 none 0
        (.respOk [⟨2, some "A", "a", "l", [⟨some "http://i/1.jpg"⟩], none, none,
          none, some "<p>x</p>"⟩]) 7).products
      = productsOfItems [⟨2, some "A", "a", "l", [⟨some "http://i/1.jpg"⟩], none,
          none, none, some "<p>x</p>"⟩] :=
  (mapProduct_image_resolution ⟨0, none, "", "", [], none, none, none, none⟩).2.2
    5 none 0 7
    [⟨2, some "A", "a", "l", [⟨some "http://i/1.jpg"⟩], none, none, none,
      some "<p>x</p>"⟩] rfl

/-- C8: `formatPrice` yields a USD string from the sale price whenever it
parses as a number, else from the regular price whenever that parses, else
`none`; with the spec's concrete examples. -/
theorem formatPrice_prefers_sale :
    (∀ (p r : Option String) (q : JsNum), jsParsedPrice p = some q →
      formatPrice p r = some ("$" ++ formatEnUS q ++ " USD")) ∧
    (∀ (p r : Option String) (q : JsNum), jsParsedPrice p = none →
      jsParsedPrice r = some q →
      formatPrice p r = some ("$" ++ formatEnUS q ++ " USD")) ∧
    (∀ (p r : Option String), jsParsedPrice p = none → jsParsedPrice r = none →
      formatPrice p r = none) ∧
    formatPrice (some "45") (some "60") = some "$45 USD" ∧
    formatPrice none (some "60") = some "$60 USD" ∧
    formatPrice none none = none := by
  refine ⟨?_, ?_, ?_, by decide, by decide, rfl⟩
  · intro p r q h
    simp [formatPrice, h]
  · intro p r q hp hr
    simp [formatPrice, hp, hr]
  · intro p r hp hr
    simp [formatPrice, hp, hr]

theorem formatPrice_prefers_sale_witness :
    formatPrice (some "12.5") (some "60")
      = some ("$" ++ formatEnUS ⟨false, 125, -1⟩ ++ " USD") :=
  formatPrice_prefers_sale.1 (some "12.5") (some "60") ⟨false, 125, -1⟩ (by decide)

/-- C10: when the incoming (already non-empty) title is such that removing
the matched dimension substring (with surrounding parentheses/dashes)
would leave nothing, `stripDimensionsFromTitle` falls back to removing
only the derived dimension text, and ultimately to the original title —
so the scrubbed title of a mapped card is never empty. -/
theorem stripDimensions_title_nonempty :
    (∀ (title : String) (dims : Option String),
      title ≠ "" → stripDimensionsFromTitle title dims ≠ "") ∧
    (∀ (title : String) (dims : Option String),
      dimCleanedTitle title = "" → optTruthy dims = false →
      stripDimensionsFromTitle title dims = title) ∧
    (∀ (item : RawItem) (c : ProductCard),
      mapProduct item = some c → c.title ≠ "") := by
  have h1 : ∀ (title : String) (dims : Option String),
      title ≠ "" → stripDimensionsFromTitle title dims ≠ "" := by
    intro t d ht
    simp only [stripDimensionsFromTitle]
    split
    · rename_i hc
      exact hc
    · rename_i hc
      split
      · split
        · exact ht
        · rename_i hr
          exact hr
      · exact ht
  have h2 : ∀ (t : String) (d : Option String), dimCleanedTitle t = "" →
      optTruthy d = false → stripDimensionsFromTitle t d = t := by
    intro t d hc hd
    simp [stripDimensionsFromTitle, hc, hd]
  refine ⟨h1, h2, ?_⟩
  intro item c hc
  by_cases h : normalizeMediumText (stripTags item.name) = ""
  · simp [mapProduct, h] at hc
  · simp only [mapProduct, if_neg h, Option.some.injEq] at hc
    subst hc
    dsimp only
    exact h1 _ _ h

theorem stripDimensions_title_nonempty_witness :
    stripDimensionsFromTitle "24x36" (some "24 x 36 in") ≠ "" :=
  stripDimensions_title_nonempty.1 "24x36" (some "24 x 36 in") (by decide)

end MyLightGallery
